import Mathlib

/-!
Verification development for the segment editor frontend
(`src/frontend/app.js`, soft-delete variant, and `src/unnamed/part_000`,
immediate hard-delete variant).

The JavaScript state machine is shallowly embedded: the mutable `state`
object becomes an explicit `AppState` record, DOM side effects that carry
program state (the enabled state of the undo and delete buttons, the status
line) become fields or outputs, network calls become explicit output lists
of `ApiCall` values, and JS numbers become rationals (ℚ).  JS array
operations (`find`, `findIndex`, `indexOf`+`splice`, `splice` insert and
remove) are embedded as the small list functions below, with JS semantics
(first match, no-op when out of range).
-/

namespace SegmentEditor

/-- A segment record, as served by `GET /api/segments` and held in
`state.segments`.  `start_time` and `end_time` are not part of the data
model; they model the properties that `startTimeEdit` in `app.js`
dynamically adds to a segment object (absent = `none`). -/
structure Segment where
  segment_id : ℤ
  chunk_id : ℤ
  start_sec : ℚ
  end_sec : ℚ
  text : String
  gap_type : String
  markedForDeletion : Bool := false
  start_time : Option ℚ := none
  end_time : Option ℚ := none
deriving DecidableEq, Repr

instance : Inhabited Segment :=
  ⟨{ segment_id := 0, chunk_id := 0, start_sec := 0, end_sec := 0,
     text := "", gap_type := "" }⟩

/-- Body of a `PUT /api/segments/<id>` request; a `none` field models an
absent JSON key (`JSON.stringify` drops `undefined` properties). -/
structure UpdateBody where
  start_sec : Option ℚ := none
  end_sec : Option ℚ := none
  text : Option String := none
  start_time : Option ℚ := none
  end_time : Option ℚ := none
deriving DecidableEq, Repr

/-- A network request issued by the frontend. -/
inductive ApiCall where
  | put (segmentId : ℤ) (body : UpdateBody)
  | delete (segmentId : ℤ)
deriving DecidableEq, Repr

/-- Kind of message shown by `setStatus`. -/
inductive StatusKind where
  | neutral
  | saving
  | saved
  | error
deriving DecidableEq, Repr

/-- A status-line report (`setStatus(message, type)`). -/
structure StatusMsg where
  kind : StatusKind
  message : String
deriving DecidableEq, Repr

/-- JS `Array.prototype.find` mutation pattern: the code looks up the first
element satisfying `p` and mutates that object in place; here, apply `f` to
the first element satisfying `p` and keep the rest unchanged. -/
def modifyFirst (p : α → Bool) (f : α → α) : List α → List α
  | [] => []
  | x :: xs => if p x then f x :: xs else x :: modifyFirst p f xs

/-- JS `Array.prototype.findIndex`: index of the first element satisfying
`p`, or `none` (JS `-1`). -/
def findIndex (p : α → Bool) : List α → Option ℕ
  | [] => none
  | x :: xs => if p x then some 0 else (findIndex p xs).map (· + 1)

/-- JS `indexOf` followed by `splice(idx, 1)`: remove the first occurrence
of `a`, no-op when `a` is absent (`indexOf` returns `-1`). -/
def removeFirstOccurrence (l : List ℤ) (a : ℤ) : List ℤ :=
  match l with
  | [] => []
  | x :: xs => if x = a then xs else x :: removeFirstOccurrence xs a

/-- JS `splice(i, 0, a)`: insert `a` at index `i` (clamped to the array
length, as in JS). -/
def spliceInsert (l : List α) (i : ℕ) (a : α) : List α :=
  l.take i ++ a :: l.drop i

/-- JS `splice(i, 1)`: remove the element at index `i` (no-op past the
end, as in JS). -/
def spliceRemove (l : List α) (i : ℕ) : List α :=
  l.take i ++ l.drop (i + 1)

/-- An entry of `state.undoStack` in `app.js` (soft-delete variant).
`timeCell` is the entry pushed by `startTimeEdit` (it records only the
formatted prior value under the key `time`, so the undo handler finds
neither `oldStart` nor `oldText` in it). -/
inductive UndoEntry where
  | editTimes (segmentId : ℤ) (oldStart oldEnd : ℚ)
  | editText (segmentId : ℤ) (oldText : String)
  | deleteMark (segmentId : ℤ)
  | timeCell (segmentId : ℤ) (time : ℚ)
deriving DecidableEq, Repr

/-- The `segmentId` field every undo entry carries. -/
def UndoEntry.segmentId : UndoEntry → ℤ
  | .editTimes i _ _ => i
  | .editText i _ => i
  | .deleteMark i => i
  | .timeCell i _ => i

/-- `item.type === 'delete'`. -/
def UndoEntry.isDelete : UndoEntry → Bool
  | .deleteMark _ => true
  | _ => false

/-- The field restoration the undo handler performs for a non-delete entry:
`'oldStart' in lastChange` restores the times, `'oldText' in lastChange`
restores the text, a `timeCell` entry has neither key and restores
nothing. -/
def UndoEntry.applyEdit : UndoEntry → Segment → Segment
  | .editTimes _ oldStart oldEnd, s => { s with start_sec := oldStart, end_sec := oldEnd }
  | .editText _ oldText, s => { s with text := oldText }
  | _, s => s

/-- The `updates` object the undo handler sends to the server for a
non-delete entry. -/
def UndoEntry.updates : UndoEntry → UpdateBody
  | .editTimes _ oldStart oldEnd => { start_sec := some oldStart, end_sec := some oldEnd }
  | .editText _ oldText => { text := some oldText }
  | _ => {}

/-- The program state of `app.js`: the `state` globals the core logic
reads and writes, plus the enabled state of the undo and delete buttons
(DOM state the code maintains alongside `state`). -/
structure AppState where
  segments : List Segment
  selectedSegmentId : Option ℤ
  undoStack : List UndoEntry
  deletedSegments : List ℤ
  hasUnsavedChanges : Bool
  undoEnabled : Bool
  deleteEnabled : Bool
deriving DecidableEq, Repr

/-- A segment id argument as it arrives at `selectSegment`: either a JS
number or a decimal numeral string (as produced by `region.id =
segment.segment_id.toString()`).  `str n` stands for the decimal string
denoting `n`; JS `parseInt` recovers `n` from it. -/
inductive JsId where
  | num (n : ℤ)
  | str (n : ℤ)
deriving DecidableEq, Repr

/-- `typeof segmentId === 'string' ? parseInt(segmentId) : segmentId`. -/
def JsId.normalize : JsId → ℤ
  | .num n => n
  | .str n => n

/-- `selectSegment` (app.js, lines 290–334): normalizes the id, records the
selection, looks the segment up with coercive equality, and sets the
delete button's enabled state (disabled when the segment is missing or
already marked for deletion).  Highlighting, zooming and row scrolling are
DOM/waveform effects with no program state. -/
def selectSegment (st : AppState) (segmentId : JsId) : AppState :=
  let i := segmentId.normalize
  let segment := st.segments.find? (fun s => s.segment_id == i)
  { st with
    selectedSegmentId := some i
    deleteEnabled :=
      match segment with
      | some s => !s.markedForDeletion
      | none => false }

/-- `handleRegionUpdate` (app.js, lines 213–242): commit of a region
drag/resize.  Pushes the prior times onto the undo stack, writes the new
times into the segment, marks unsaved changes, and issues a `PUT` with the
new `start_sec`/`end_sec`. -/
def handleRegionUpdate (st : AppState) (regionId : ℤ)
    (regionStart regionEnd chunkStart : ℚ) : AppState × List ApiCall :=
  match st.segments.find? (fun s => s.segment_id == regionId) with
  | none => (st, [])
  | some segment =>
    let newStartSec := regionStart + chunkStart
    let newEndSec := regionEnd + chunkStart
    let entry := UndoEntry.editTimes regionId segment.start_sec segment.end_sec
    ({ st with
        segments := modifyFirst (fun s => s.segment_id == regionId)
          (fun s => { s with start_sec := newStartSec, end_sec := newEndSec }) st.segments
        undoStack := entry :: st.undoStack
        undoEnabled := true
        hasUnsavedChanges := true },
     [ApiCall.put regionId { start_sec := some newStartSec, end_sec := some newEndSec }])

/-- `startTextEdit`'s `finishEdit(true)` (app.js, lines 656–677): when the
new text differs from the original, push the prior text, write the new
text, and issue a `PUT { text }`; otherwise nothing happens. -/
def commitTextEdit (st : AppState) (segId : ℤ) (newText : String) :
    AppState × List ApiCall :=
  match st.segments.find? (fun s => s.segment_id == segId) with
  | none => (st, [])
  | some segment =>
    let originalText := segment.text
    if newText = originalText then (st, [])
    else
      ({ st with
          segments := modifyFirst (fun s => s.segment_id == segId)
            (fun s => { s with text := newText }) st.segments
          undoStack := UndoEntry.editText segId originalText :: st.undoStack
          undoEnabled := true },
       [ApiCall.put segId { text := some newText }])

/-- JS `Number.prototype.toFixed(2)`, read back as a number: the value
rounded to two decimal places. -/
def roundTo2 (q : ℚ) : ℚ := (round (q * 100) : ℤ) / 100

/-- `startTimeEdit`'s `finishEdit(true)` (app.js, lines 707–733): when the
entered value differs from the displayed 2-decimal value, push a
`{segmentId, time}` entry, then assign `segment.start_time` (resp.
`segment.end_time`) — not `start_sec`/`end_sec` — and issue a
`PUT { start_time, end_time }` built from those dynamic properties. -/
def commitTimeEdit (st : AppState) (segId : ℤ) (isStart : Bool)
    (newTime : ℚ) : AppState × List ApiCall :=
  match st.segments.find? (fun s => s.segment_id == segId) with
  | none => (st, [])
  | some segment =>
    let originalTime := if isStart then segment.start_sec else segment.end_sec
    if newTime = roundTo2 originalTime then (st, [])
    else
      let mutate : Segment → Segment := fun s =>
        if isStart then { s with start_time := some newTime }
        else { s with end_time := some newTime }
      let segment' := mutate segment
      ({ st with
          segments := modifyFirst (fun s => s.segment_id == segId) mutate st.segments
          undoStack := UndoEntry.timeCell segId (roundTo2 originalTime) :: st.undoStack
          undoEnabled := true },
       [ApiCall.put segId
          { start_time := segment'.start_time, end_time := segment'.end_time }])

/-- The auto-advance at the end of `deleteSelectedSegment` (app.js, lines
388–399): select the first not-marked segment after index `i`, else the
last not-marked segment before index `i`, else clear the selection and
disable the delete button. -/
def autoAdvance (st : AppState) (i : ℕ) : AppState :=
  let withIdx := st.segments.enum
  let nextSegment :=
    (withIdx.find? (fun js => decide (i < js.1) && !js.2.markedForDeletion)).map (·.2)
  let prevSegment :=
    ((withIdx.filter (fun js => decide (js.1 < i) && !js.2.markedForDeletion)).getLast?).map (·.2)
  match nextSegment with
  | some s => selectSegment st (.num s.segment_id)
  | none =>
    match prevSegment with
    | some s => selectSegment st (.num s.segment_id)
    | none => { st with selectedSegmentId := none, deleteEnabled := false }

/-- `deleteSelectedSegment` (app.js, lines 337–400, soft-delete variant):
if a selected segment exists and is not already marked, push a delete
entry, set `markedForDeletion`, append the id to `state.deletedSegments`,
mark unsaved changes, and auto-advance the selection.  The segments array
is never spliced. -/
def deleteSelectedSegment (st : AppState) : AppState :=
  match st.selectedSegmentId with
  | none => st
  | some segmentId =>
    match findIndex (fun s => s.segment_id == segmentId) st.segments with
    | none => st
    | some segmentIndex =>
      let segment := st.segments.getD segmentIndex default
      if segment.markedForDeletion then st
      else
        autoAdvance
          { st with
              undoStack := UndoEntry.deleteMark segmentId :: st.undoStack
              undoEnabled := true
              segments := modifyFirst (fun s => s.segment_id == segmentId)
                (fun s => { s with markedForDeletion := true }) st.segments
              deletedSegments := st.deletedSegments ++ [segmentId]
              hasUnsavedChanges := true }
          segmentIndex

/-- `undo` (app.js, lines 791–874): pop the most recent entry.  A
`delete` entry unmarks the segment, removes its id from
`state.deletedSegments`, and re-selects it; a missing segment leaves
everything but the button state untouched.  Any other entry restores the
recorded fields onto the segment and re-issues a `PUT` with the restored
values; a missing segment discards the entry with no call.  In every case
the undo button is re-enabled iff the remaining stack is non-empty. -/
def undo (st : AppState) : AppState × List ApiCall :=
  match st.undoStack with
  | [] => (st, [])
  | lastChange :: rest =>
    let st0 := { st with undoStack := rest }
    match lastChange with
    | .deleteMark segmentId =>
      match st0.segments.find? (fun s => s.segment_id == segmentId) with
      | none => ({ st0 with undoEnabled := !rest.isEmpty }, [])
      | some _ =>
        let st1 :=
          { st0 with
              segments := modifyFirst (fun s => s.segment_id == segmentId)
                (fun s => { s with markedForDeletion := false }) st0.segments
              deletedSegments := removeFirstOccurrence st0.deletedSegments segmentId }
        let st2 := selectSegment st1 (.num segmentId)
        ({ st2 with undoEnabled := !rest.isEmpty }, [])
    | e =>
      match st0.segments.find? (fun s => s.segment_id == e.segmentId) with
      | none => ({ st0 with undoEnabled := !rest.isEmpty }, [])
      | some _ =>
        let st1 :=
          { st0 with
              segments := modifyFirst (fun s => s.segment_id == e.segmentId)
                e.applyEdit st0.segments }
        let st2 :=
          match st1.selectedSegmentId with
          | some sid => selectSegment st1 (.num sid)
          | none => st1
        ({ st2 with undoEnabled := !rest.isEmpty },
         [ApiCall.put e.segmentId e.updates])

/-- The sequential delete loop of `saveAll`: issue one `DELETE` per id in
order; a failing call (the promise rejects) aborts the remainder.
Returns the calls actually issued and whether all of them succeeded.
`ok` is the network oracle saying whether the delete of a given id
succeeds. -/
def runDeletes (ok : ℤ → Bool) : List ℤ → List ApiCall × Bool
  | [] => ([], true)
  | segmentId :: rest =>
    if ok segmentId then
      let r := runDeletes ok rest
      (ApiCall.delete segmentId :: r.1, r.2)
    else ([ApiCall.delete segmentId], false)

/-- `saveAll` (app.js, lines 257–287): with no pending deletions, report
"All changes saved" and clear the unsaved flag without any network call.
Otherwise drain `state.deletedSegments` sequentially; on full success
clear the list, purge delete-kind undo entries, recompute the undo button
and clear the unsaved flag; on any failure leave the state as it was
(only the status reports the error).  Returns (new state, issued calls,
final status). -/
def saveAll (ok : ℤ → Bool) (st : AppState) :
    AppState × List ApiCall × StatusMsg :=
  let deletedCount := st.deletedSegments.length
  if deletedCount = 0 then
    ({ st with hasUnsavedChanges := false }, [],
     { kind := .saved, message := "All changes saved" })
  else
    let r := runDeletes ok st.deletedSegments
    if r.2 then
      let undoStack' := st.undoStack.filter (fun item => !item.isDelete)
      let plural := if deletedCount > 1 then "s" else ""
      ({ st with
          deletedSegments := []
          undoStack := undoStack'
          undoEnabled := !undoStack'.isEmpty
          hasUnsavedChanges := false },
       r.1,
       { kind := .saved, message := "Saved (" ++ toString deletedCount ++ " segment" ++ plural ++ " deleted)" })
    else
      (st, r.1, { kind := .error, message := "Save failed" })

/-- The pure zoom/scroll computation of `zoomToSegment` + `centerOnTime`
(app.js, lines 474–556): pixels-per-second so the segment fills half the
viewport, clamped between fit-all and 500, and the scroll offset centering
the segment midpoint, clamped to the scrollable range. -/
def zoomToSegmentCalc (localStart localEnd totalDuration containerWidth : ℚ) :
    ℚ × ℚ :=
  let segmentDuration := localEnd - localStart
  let targetRatio : ℚ := 1 / 2
  let visibleDuration := segmentDuration / targetRatio
  let pxPerSec := containerWidth / visibleDuration
  let minZoom := containerWidth / totalDuration
  let maxZoom : ℚ := 500
  let clampedPxPerSec := max minZoom (min maxZoom pxPerSec)
  let segmentCenter := (localStart + localEnd) / 2
  let centerRatio := segmentCenter / totalDuration
  let totalWidth := clampedPxPerSec * totalDuration
  let centerPx := centerRatio * totalWidth
  let targetScroll := centerPx - containerWidth / 2
  let maxScroll := max 0 (totalWidth - containerWidth)
  let clampedScroll := max 0 (min targetScroll maxScroll)
  (clampedPxPerSec, clampedScroll)

end SegmentEditor

namespace SegmentEditorHard

open SegmentEditor (Segment UpdateBody ApiCall StatusMsg modifyFirst findIndex
  removeFirstOccurrence spliceInsert spliceRemove JsId)

/-- An entry of `state.undoStack` in `src/unnamed/part_000` (immediate
hard-delete variant): a delete entry stores a copy of the removed segment
together with its original index. -/
inductive UndoEntry where
  | editTimes (segmentId : ℤ) (oldStart oldEnd : ℚ)
  | editText (segmentId : ℤ) (oldText : String)
  | deleteSeg (segment : Segment) (index : ℕ)
deriving DecidableEq, Repr

/-- `item.type === 'delete'`. -/
def UndoEntry.isDelete : UndoEntry → Bool
  | .deleteSeg _ _ => true
  | _ => false

/-- Program state of the hard-delete variant. -/
structure AppState where
  segments : List Segment
  selectedSegmentId : Option ℤ
  undoStack : List UndoEntry
  deletedSegments : List ℤ
  hasUnsavedChanges : Bool
  undoEnabled : Bool
  deleteEnabled : Bool
deriving DecidableEq, Repr

/-- `selectSegment` (part_000, lines 279–309): normalizes the id, records
the selection, and enables the delete button iff the segment is found. -/
def selectSegment (st : AppState) (segmentId : JsId) : AppState :=
  let i := segmentId.normalize
  let segment := st.segments.find? (fun s => s.segment_id == i)
  { st with
    selectedSegmentId := some i
    deleteEnabled := segment.isSome }

/-- `deleteSelectedSegment` (part_000, lines 312–358): remove the selected
segment from the array immediately, storing a copy and its index on the
undo stack, append the id to the pending-deletion list, clear the
selection, then select the segment now at `min(index, length - 1)` if any
remain. -/
def deleteSelectedSegment (st : AppState) : AppState :=
  match st.selectedSegmentId with
  | none => st
  | some segmentId =>
    match findIndex (fun s => s.segment_id == segmentId) st.segments with
    | none => st
    | some segmentIndex =>
      let segment := st.segments.getD segmentIndex default
      let st1 :=
        { st with
            undoStack := UndoEntry.deleteSeg segment segmentIndex :: st.undoStack
            undoEnabled := true
            deletedSegments := st.deletedSegments ++ [segmentId]
            segments := spliceRemove st.segments segmentIndex
            selectedSegmentId := none
            deleteEnabled := false
            hasUnsavedChanges := true }
      if st1.segments.length > 0 then
        let nextIndex := min segmentIndex (st1.segments.length - 1)
        selectSegment st1 (.num (st1.segments.getD nextIndex default).segment_id)
      else st1

/-- `undo` (part_000, lines 617–677): a delete entry removes the id from
the pending-deletion list, re-inserts the stored segment at its stored
index, and re-selects it; an edit entry restores the recorded fields and
re-issues a `PUT`, and is discarded without effect when the segment is
missing.  The undo button is re-enabled iff the remaining stack is
non-empty. -/
def undo (st : AppState) : AppState × List ApiCall :=
  match st.undoStack with
  | [] => (st, [])
  | lastChange :: rest =>
    let st0 := { st with undoStack := rest }
    match lastChange with
    | .deleteSeg restoredSegment index =>
      let st1 :=
        { st0 with
            deletedSegments :=
              removeFirstOccurrence st0.deletedSegments restoredSegment.segment_id
            segments := spliceInsert st0.segments index restoredSegment }
      let st2 := selectSegment st1 (.num restoredSegment.segment_id)
      ({ st2 with undoEnabled := !rest.isEmpty }, [])
    | .editTimes segmentId oldStart oldEnd =>
      match st0.segments.find? (fun s => s.segment_id == segmentId) with
      | none => ({ st0 with undoEnabled := !rest.isEmpty }, [])
      | some _ =>
        let st1 :=
          { st0 with
              segments := modifyFirst (fun s => s.segment_id == segmentId)
                (fun s => { s with start_sec := oldStart, end_sec := oldEnd }) st0.segments }
        let st2 :=
          match st1.selectedSegmentId with
          | some sid => selectSegment st1 (.num sid)
          | none => st1
        ({ st2 with undoEnabled := !rest.isEmpty },
         [ApiCall.put segmentId { start_sec := some oldStart, end_sec := some oldEnd }])
    | .editText segmentId oldText =>
      match st0.segments.find? (fun s => s.segment_id == segmentId) with
      | none => ({ st0 with undoEnabled := !rest.isEmpty }, [])
      | some _ =>
        let st1 :=
          { st0 with
              segments := modifyFirst (fun s => s.segment_id == segmentId)
                (fun s => { s with text := oldText }) st0.segments }
        let st2 :=
          match st1.selectedSegmentId with
          | some sid => selectSegment st1 (.num sid)
          | none => st1
        ({ st2 with undoEnabled := !rest.isEmpty },
         [ApiCall.put segmentId { text := some oldText }])

end SegmentEditorHard

namespace SegmentEditor

theorem modifyFirst_length (p : α → Bool) (f : α → α) (l : List α) :
    (modifyFirst p f l).length = l.length := by
  induction l with
  | nil => rfl
  | cons x xs ih => by_cases hx : p x = true <;> simp [modifyFirst, hx, ih]

theorem modifyFirst_map (p : α → Bool) (f : α → α) (g : α → β)
    (hf : ∀ x, g (f x) = g x) (l : List α) :
    (modifyFirst p f l).map g = l.map g := by
  induction l with
  | nil => rfl
  | cons x xs ih => by_cases hx : p x = true <;> simp [modifyFirst, hx, ih, hf]

theorem find?_modifyFirst (p : α → Bool) (f : α → α) {l : List α} {a : α}
    (h : l.find? p = some a) (hfa : p (f a) = true) :
    (modifyFirst p f l).find? p = some (f a) := by
  induction l with
  | nil => simp at h
  | cons x xs ih =>
    by_cases hx : p x = true
    · rw [List.find?_cons_of_pos _ hx] at h
      cases h
      simp [modifyFirst, hx, List.find?_cons_of_pos _ hfa]
    · rw [List.find?_cons_of_neg _ hx] at h
      simp only [modifyFirst, hx, if_false, Bool.false_eq_true]
      rw [List.find?_cons_of_neg _ hx]
      exact ih h

theorem modifyFirst_modifyFirst (p : α → Bool) (f g : α → α) {l : List α} {a : α}
    (h : l.find? p = some a) (hfa : p (f a) = true) (hg : g (f a) = a) :
    modifyFirst p g (modifyFirst p f l) = l := by
  induction l with
  | nil => rfl
  | cons x xs ih =>
    by_cases hx : p x = true
    · rw [List.find?_cons_of_pos _ hx] at h
      cases h
      simp [modifyFirst, hx, hfa, hg]
    · rw [List.find?_cons_of_neg _ hx] at h
      simp [modifyFirst, hx, ih h]

theorem findIndex_spec {p : α → Bool} {l : List α} {i : ℕ} (d : α)
    (h : findIndex p l = some i) :
    i < l.length ∧ p (l.getD i d) = true ∧ l.find? p = some (l.getD i d) := by
  induction l generalizing i with
  | nil => simp [findIndex] at h
  | cons x xs ih =>
    by_cases hx : p x = true
    · simp [findIndex, hx] at h
      subst h
      simp [hx, List.find?_cons_of_pos _ hx]
    · simp [findIndex, hx] at h
      obtain ⟨j, hj, rfl⟩ := h
      obtain ⟨h1, h2, h3⟩ := ih hj
      refine ⟨by simpa using Nat.succ_lt_succ h1, by simpa using h2, ?_⟩
      rw [List.find?_cons_of_neg _ hx]
      simpa using h3

theorem removeFirstOccurrence_append (l : List ℤ) (a : ℤ) (h : a ∉ l) :
    removeFirstOccurrence (l ++ [a]) a = l := by
  induction l with
  | nil => simp [removeFirstOccurrence]
  | cons x xs ih =>
    have hx : ¬x = a := fun hxa => h (hxa ▸ List.mem_cons_self x xs)
    simp only [List.cons_append, removeFirstOccurrence, hx, if_false]
    show x :: removeFirstOccurrence (xs ++ [a]) a = x :: xs
    rw [ih (fun hm => h (List.mem_cons_of_mem x hm))]

theorem spliceInsert_spliceRemove (l : List α) (i : ℕ) (d : α)
    (h : i < l.length) :
    spliceInsert (spliceRemove l i) i (l.getD i d) = l := by
  induction l generalizing i with
  | nil => simp at h
  | cons x xs ih =>
    cases i with
    | zero => simp [spliceInsert, spliceRemove]
    | succ n =>
      have hn : n < xs.length := by simpa using h
      simp only [spliceRemove, spliceInsert, List.take_succ_cons, List.drop_succ_cons,
        List.getD_cons_succ, List.cons_append]
      have := ih n hn
      simp only [spliceRemove, spliceInsert] at this
      rw [this]

@[simp] theorem selectSegment_segments (st : AppState) (j : JsId) :
    (selectSegment st j).segments = st.segments := rfl

@[simp] theorem selectSegment_undoStack (st : AppState) (j : JsId) :
    (selectSegment st j).undoStack = st.undoStack := rfl

@[simp] theorem selectSegment_deletedSegments (st : AppState) (j : JsId) :
    (selectSegment st j).deletedSegments = st.deletedSegments := rfl

@[simp] theorem selectSegment_hasUnsavedChanges (st : AppState) (j : JsId) :
    (selectSegment st j).hasUnsavedChanges = st.hasUnsavedChanges := rfl

@[simp] theorem selectSegment_undoEnabled (st : AppState) (j : JsId) :
    (selectSegment st j).undoEnabled = st.undoEnabled := rfl

@[simp] theorem autoAdvance_segments (st : AppState) (i : ℕ) :
    (autoAdvance st i).segments = st.segments := by
  simp only [autoAdvance]
  split
  · rfl
  · split <;> rfl

@[simp] theorem autoAdvance_undoStack (st : AppState) (i : ℕ) :
    (autoAdvance st i).undoStack = st.undoStack := by
  simp only [autoAdvance]
  split
  · rfl
  · split <;> rfl

@[simp] theorem autoAdvance_deletedSegments (st : AppState) (i : ℕ) :
    (autoAdvance st i).deletedSegments = st.deletedSegments := by
  simp only [autoAdvance]
  split
  · rfl
  · split <;> rfl

@[simp] theorem autoAdvance_hasUnsavedChanges (st : AppState) (i : ℕ) :
    (autoAdvance st i).hasUnsavedChanges = st.hasUnsavedChanges := by
  simp only [autoAdvance]
  split
  · rfl
  · split <;> rfl

theorem Segment.unmark_mark (s : Segment) (h : s.markedForDeletion = false) :
    ({ { s with markedForDeletion := true } with markedForDeletion := false } : Segment) = s := by
  cases s
  simp only [Segment.mk.injEq]
  simp_all

theorem Segment.restore_times (s : Segment) (x y : ℚ) :
    ({ { s with start_sec := x, end_sec := y } with
        start_sec := s.start_sec, end_sec := s.end_sec } : Segment) = s := by
  cases s
  rfl

theorem Segment.restore_text (s : Segment) (x : String) :
    ({ { s with text := x } with text := s.text } : Segment) = s := by
  cases s
  rfl

/-- Claim C2: in the soft-delete variant, for every selected segment not
already marked, `deleteSelectedSegment()` followed by `undo()` leaves that
segment with `markedForDeletion = false`, removes its id from the
pending-deletion list, and leaves its position in the segments array
unchanged (the whole array is restored); the soft-delete path never
reorders or removes elements of the segments array (the delete alone
preserves the id sequence). -/
theorem soft_delete_undo_roundtrip (st : AppState) (segId : ℤ) (i : ℕ)
    (hsel : st.selectedSegmentId = some segId)
    (hidx : findIndex (fun s => s.segment_id == segId) st.segments = some i)
    (hmark : (st.segments.getD i default).markedForDeletion = false)
    (hpend : segId ∉ st.deletedSegments) :
    ((undo (deleteSelectedSegment st)).1.segments = st.segments) ∧
    ((undo (deleteSelectedSegment st)).1.deletedSegments = st.deletedSegments) ∧
    segId ∉ (undo (deleteSelectedSegment st)).1.deletedSegments ∧
    (deleteSelectedSegment st).segments.map Segment.segment_id
      = st.segments.map Segment.segment_id := by
  obtain ⟨hlen, hpa, hfind⟩ := findIndex_spec default hidx
  have hd : deleteSelectedSegment st =
      autoAdvance
        { st with
            undoStack := UndoEntry.deleteMark segId :: st.undoStack
            undoEnabled := true
            segments := modifyFirst (fun s => s.segment_id == segId)
              (fun s => { s with markedForDeletion := true }) st.segments
            deletedSegments := st.deletedSegments ++ [segId]
            hasUnsavedChanges := true } i := by
    unfold deleteSelectedSegment
    simp only [hsel, hidx]
    rw [List.getD_eq_getElem?_getD] at hmark
    simp [hmark]
  have hpmark :
      (({ st.segments.getD i default with markedForDeletion := true } : Segment).segment_id
        == segId) = true := by
    simpa using hpa
  have hfind2 :
      (modifyFirst (fun s => s.segment_id == segId)
          (fun s => { s with markedForDeletion := true }) st.segments).find?
        (fun s => s.segment_id == segId)
        = some ({ st.segments.getD i default with markedForDeletion := true }) :=
    find?_modifyFirst _ _ hfind hpmark
  have hround :
      modifyFirst (fun s => s.segment_id == segId)
        (fun s => { s with markedForDeletion := false })
        (modifyFirst (fun s => s.segment_id == segId)
          (fun s => { s with markedForDeletion := true }) st.segments)
        = st.segments :=
    modifyFirst_modifyFirst _ _ _ hfind hpmark
      (Segment.unmark_mark _ hmark)
  have hu1 : (undo (deleteSelectedSegment st)).1.segments = st.segments := by
    rw [hd]
    unfold undo
    simp only [autoAdvance_undoStack]
    simp only [autoAdvance_segments, hfind2, hround, selectSegment_segments]
  have hu2 : (undo (deleteSelectedSegment st)).1.deletedSegments
      = st.deletedSegments := by
    rw [hd]
    unfold undo
    simp only [autoAdvance_undoStack]
    simp only [autoAdvance_segments, autoAdvance_deletedSegments, hfind2,
      selectSegment_deletedSegments]
    exact removeFirstOccurrence_append _ _ hpend
  refine ⟨hu1, hu2, ?_, ?_⟩
  · rw [hu2]
    exact hpend
  · rw [hd]
    simp only [autoAdvance_segments]
    exact modifyFirst_map (fun s => s.segment_id == segId)
      (fun s => { s with markedForDeletion := true })
      Segment.segment_id (fun s => rfl) st.segments

/-- Round-trip of a committed region drag/resize: the push records the
prior times and the following undo restores the segments array exactly. -/
theorem region_edit_undo_roundtrip (st : AppState) (regionId : ℤ)
    (rs re cs : ℚ) {seg : Segment}
    (hfind : st.segments.find? (fun s => s.segment_id == regionId) = some seg) :
    ((handleRegionUpdate st regionId rs re cs).1.undoStack
      = UndoEntry.editTimes regionId seg.start_sec seg.end_sec :: st.undoStack) ∧
    (undo (handleRegionUpdate st regionId rs re cs).1).1.segments = st.segments := by
  have hpa : (seg.segment_id == regionId) = true := by simpa using List.find?_some hfind
  have hd : (handleRegionUpdate st regionId rs re cs).1 =
      { st with
          segments := modifyFirst (fun s => s.segment_id == regionId)
            (fun s => { s with start_sec := rs + cs, end_sec := re + cs }) st.segments
          undoStack := UndoEntry.editTimes regionId seg.start_sec seg.end_sec :: st.undoStack
          undoEnabled := true
          hasUnsavedChanges := true } := by
    unfold handleRegionUpdate
    simp only [hfind]
  have hpa2 : (({ seg with start_sec := rs + cs, end_sec := re + cs } : Segment).segment_id
      == regionId) = true := by simpa using hpa
  have hfind2 :
      (modifyFirst (fun s => s.segment_id == regionId)
          (fun s => { s with start_sec := rs + cs, end_sec := re + cs }) st.segments).find?
        (fun s => s.segment_id == regionId)
        = some ({ seg with start_sec := rs + cs, end_sec := re + cs }) :=
    find?_modifyFirst _ _ hfind hpa2
  have hround :
      modifyFirst (fun s => s.segment_id == regionId)
        ((UndoEntry.editTimes regionId seg.start_sec seg.end_sec).applyEdit)
        (modifyFirst (fun s => s.segment_id == regionId)
          (fun s => { s with start_sec := rs + cs, end_sec := re + cs }) st.segments)
        = st.segments :=
    modifyFirst_modifyFirst _ _ _ hfind hpa2 (Segment.restore_times seg (rs + cs) (re + cs))
  refine ⟨by rw [hd], ?_⟩
  rw [hd]
  unfold undo
  simp only [UndoEntry.segmentId, hfind2, hround]
  cases hs : st.selectedSegmentId <;> simp [hs]

/-- Round-trip of a committed text edit that changes the text: the push
records the prior text and the following undo restores the segments array
exactly. -/
theorem text_edit_undo_roundtrip (st : AppState) (segId : ℤ)
    (newText : String) {seg : Segment}
    (hfind : st.segments.find? (fun s => s.segment_id == segId) = some seg)
    (hne : newText ≠ seg.text) :
    ((commitTextEdit st segId newText).1.undoStack
      = UndoEntry.editText segId seg.text :: st.undoStack) ∧
    (undo (commitTextEdit st segId newText).1).1.segments = st.segments := by
  have hpa : (seg.segment_id == segId) = true := by simpa using List.find?_some hfind
  have hd : (commitTextEdit st segId newText).1 =
      { st with
          segments := modifyFirst (fun s => s.segment_id == segId)
            (fun s => { s with text := newText }) st.segments
          undoStack := UndoEntry.editText segId seg.text :: st.undoStack
          undoEnabled := true } := by
    unfold commitTextEdit
    simp only [hfind]
    simp [hne]
  have hpa2 : (({ seg with text := newText } : Segment).segment_id == segId) = true := by
    simpa using hpa
  have hfind2 :
      (modifyFirst (fun s => s.segment_id == segId)
          (fun s => { s with text := newText }) st.segments).find?
        (fun s => s.segment_id == segId)
        = some ({ seg with text := newText }) :=
    find?_modifyFirst _ _ hfind hpa2
  have hround :
      modifyFirst (fun s => s.segment_id == segId)
        ((UndoEntry.editText segId seg.text).applyEdit)
        (modifyFirst (fun s => s.segment_id == segId)
          (fun s => { s with text := newText }) st.segments)
        = st.segments :=
    modifyFirst_modifyFirst _ _ _ hfind hpa2 (Segment.restore_text seg newText)
  refine ⟨by rw [hd], ?_⟩
  rw [hd]
  unfold undo
  simp only [UndoEntry.segmentId, hfind2, hround]
  cases hs : st.selectedSegmentId <;> simp [hs]

end SegmentEditor


namespace SegmentEditorHard

open SegmentEditor (Segment findIndex findIndex_spec spliceInsert spliceRemove
  spliceInsert_spliceRemove removeFirstOccurrence JsId)

@[simp] theorem selectSegment_segments_hard (st : AppState) (j : JsId) :
    (selectSegment st j).segments = st.segments := rfl

@[simp] theorem selectSegment_undoStack_hard (st : AppState) (j : JsId) :
    (selectSegment st j).undoStack = st.undoStack := rfl

@[simp] theorem selectSegment_deletedSegments_hard (st : AppState) (j : JsId) :
    (selectSegment st j).deletedSegments = st.deletedSegments := rfl

theorem deleteSelectedSegment_fields (st : AppState) (segId : ℤ) (i : ℕ)
    (hsel : st.selectedSegmentId = some segId)
    (hidx : findIndex (fun s => s.segment_id == segId) st.segments = some i) :
    (deleteSelectedSegment st).segments = spliceRemove st.segments i ∧
    (deleteSelectedSegment st).undoStack
      = UndoEntry.deleteSeg (st.segments.getD i default) i :: st.undoStack ∧
    (deleteSelectedSegment st).deletedSegments = st.deletedSegments ++ [segId] := by
  unfold deleteSelectedSegment
  simp only [hsel, hidx]
  refine ⟨?_, ?_, ?_⟩ <;> (split <;> simp)

/-- Claim C3: in the immediate hard-delete variant, for every selected
segment at index `i` in the segments array, `deleteSelectedSegment()`
removes exactly the element at index `i`, and a following `undo()`
re-inserts the removed segment at exactly index `i`, preserving the
relative order of all other segments, so the array after undo equals the
array before the delete. -/
theorem hard_delete_undo_restores (st : AppState) (segId : ℤ) (i : ℕ)
    (hsel : st.selectedSegmentId = some segId)
    (hidx : findIndex (fun s => s.segment_id == segId) st.segments = some i) :
    ((deleteSelectedSegment st).segments
      = st.segments.take i ++ st.segments.drop (i + 1)) ∧
    (undo (deleteSelectedSegment st)).1.segments = st.segments := by
  obtain ⟨hlen, hpa, hfind⟩ := findIndex_spec default hidx
  obtain ⟨hs1, hstk, hdel⟩ := deleteSelectedSegment_fields st segId i hsel hidx
  refine ⟨hs1, ?_⟩
  unfold undo
  simp only [hstk]
  simp only [hs1, selectSegment_segments_hard]
  show spliceInsert (spliceRemove st.segments i) i (st.segments.getD i default)
      = st.segments
  exact spliceInsert_spliceRemove st.segments i default hlen

end SegmentEditorHard

namespace SegmentEditor

theorem runDeletes_all_ok (ok : ℤ → Bool) (l : List ℤ)
    (h : ∀ x ∈ l, ok x = true) :
    runDeletes ok l = (l.map ApiCall.delete, true) := by
  induction l with
  | nil => rfl
  | cons x xs ih =>
    have hx : ok x = true := h x (List.mem_cons_self x xs)
    simp only [runDeletes, hx, if_true, List.map_cons]
    rw [ih (fun y hy => h y (List.mem_cons_of_mem x hy))]

theorem runDeletes_first_failure (ok : ℤ → Bool) (pre : List ℤ) (bad : ℤ)
    (post : List ℤ) (hpre : ∀ x ∈ pre, ok x = true) (hbad : ok bad = false) :
    runDeletes ok (pre ++ bad :: post) = ((pre ++ [bad]).map ApiCall.delete, false) := by
  induction pre with
  | nil => simp [runDeletes, hbad]
  | cons x xs ih =>
    have hx : ok x = true := hpre x (List.mem_cons_self x xs)
    simp only [List.cons_append, runDeletes, hx, if_true, List.map_cons, List.append_eq]
    rw [ih (fun y hy => hpre y (List.mem_cons_of_mem x hy))]

end SegmentEditor

namespace SegmentEditor

/-- A concrete two-segment store used by the witnesses. -/
def demoSegment : Segment :=
  { segment_id := 1, chunk_id := 1, start_sec := 10, end_sec := 12,
    text := "a", gap_type := "" }

/-- Second concrete segment of the witness store. -/
def demoSegment2 : Segment :=
  { segment_id := 2, chunk_id := 1, start_sec := 20, end_sec := 22,
    text := "b", gap_type := "" }

/-- A concrete application state with two segments and segment 1 selected. -/
def demoState : AppState :=
  { segments := [demoSegment, demoSegment2], selectedSegmentId := some 1,
    undoStack := [], deletedSegments := [], hasUnsavedChanges := false,
    undoEnabled := false, deleteEnabled := true }

/-- Claim C1: for every segment present in the store, committing a time
edit (drag/resize via `handleRegionUpdate`) or a text edit pushes an undo
entry holding the prior field values, and a subsequent `undo()` restores
the segment's `start_sec`, `end_sec` and `text` to exactly their values
before that edit (the whole segments array returns to its pre-edit
value). -/
theorem c1_edit_then_undo_roundtrip (st : AppState) (segId : ℤ)
    (rs re cs : ℚ) (newText : String) (seg : Segment)
    (hfind : st.segments.find? (fun s => s.segment_id == segId) = some seg) :
    ((handleRegionUpdate st segId rs re cs).1.undoStack
        = UndoEntry.editTimes segId seg.start_sec seg.end_sec :: st.undoStack ∧
      (undo (handleRegionUpdate st segId rs re cs).1).1.segments = st.segments) ∧
    (newText ≠ seg.text →
      (commitTextEdit st segId newText).1.undoStack
          = UndoEntry.editText segId seg.text :: st.undoStack ∧
        (undo (commitTextEdit st segId newText).1).1.segments = st.segments) :=
  ⟨region_edit_undo_roundtrip st segId rs re cs hfind,
   fun hne => text_edit_undo_roundtrip st segId newText hfind hne⟩

/-- Witness for C1 at the concrete store. -/
theorem c1_witness :
    demoState.segments.find? (fun s => s.segment_id == 1) = some demoSegment ∧
    "zz" ≠ demoSegment.text ∧
    (undo (handleRegionUpdate demoState 1 11 13 0).1).1.segments = demoState.segments ∧
    (undo (commitTextEdit demoState 1 "zz").1).1.segments = demoState.segments := by
  refine ⟨by decide, by decide, ?_, ?_⟩
  · exact (c1_edit_then_undo_roundtrip demoState 1 11 13 0 "zz" demoSegment (by decide)).1.2
  · exact ((c1_edit_then_undo_roundtrip demoState 1 11 13 0 "zz" demoSegment
      (by decide)).2 (by decide)).2

/-- Witness for C2 at the concrete store. -/
theorem c2_witness :
    demoState.selectedSegmentId = some 1 ∧
    findIndex (fun s => s.segment_id == 1) demoState.segments = some 0 ∧
    (demoState.segments.getD 0 default).markedForDeletion = false ∧
    (1 : ℤ) ∉ demoState.deletedSegments ∧
    (undo (deleteSelectedSegment demoState)).1.segments = demoState.segments :=
  ⟨rfl, by decide, by decide, by decide,
   (soft_delete_undo_roundtrip demoState 1 0 rfl (by decide) (by decide) (by decide)).1⟩

end SegmentEditor

namespace SegmentEditorHard

open SegmentEditor (Segment findIndex demoSegment demoSegment2)

/-- A concrete two-segment state for the hard-delete variant witnesses. -/
def demoHardState : AppState :=
  { segments := [demoSegment, demoSegment2], selectedSegmentId := some 1,
    undoStack := [], deletedSegments := [], hasUnsavedChanges := false,
    undoEnabled := false, deleteEnabled := true }

/-- Witness for C3 at the concrete store. -/
theorem c3_witness :
    demoHardState.selectedSegmentId = some 1 ∧
    findIndex (fun s => s.segment_id == 1) demoHardState.segments = some 0 ∧
    (undo (deleteSelectedSegment demoHardState)).1.segments = demoHardState.segments :=
  ⟨rfl, by decide,
   (hard_delete_undo_restores demoHardState 1 0 rfl (by decide)).2⟩

end SegmentEditorHard

namespace SegmentEditor

theorem clamp_drop_inner_max (t m : ℚ) :
    max 0 (min t (max 0 m)) = max 0 (min t m) := by
  rcases le_total 0 m with h | h
  · rw [max_eq_right h]
  · rw [max_eq_left h]
    rw [max_eq_left (min_le_right t 0), max_eq_left (le_trans (min_le_right t m) h)]

/-- Claim C4: the zoom/scroll computation of `zoomToSegment` is a pure
function of (segment span, total duration, viewport width): the zoom is
`viewportWidth / (segmentDuration / 0.5)` clamped to the range from
`viewportWidth / totalDuration` to 500, the scroll offset is the segment
midpoint pixel minus half the viewport, clamped to
`[0, zoom * totalDuration - viewportWidth]`; a segment `[10, 12]` in a
100 s chunk with a 1000 px viewport yields zoom 250 (and scroll 2250). -/
theorem c4_zoomToSegmentCalc_spec (ls le td w : ℚ) (htd : 0 < td) :
    (zoomToSegmentCalc ls le td w).1
      = max (w / td) (min 500 (w / ((le - ls) / (1 / 2)))) ∧
    (zoomToSegmentCalc ls le td w).2
      = max 0 (min ((ls + le) / 2 * (zoomToSegmentCalc ls le td w).1 - w / 2)
          ((zoomToSegmentCalc ls le td w).1 * td - w)) ∧
    zoomToSegmentCalc 10 12 100 1000 = (250, 2250) := by
  have htd0 : td ≠ 0 := ne_of_gt htd
  refine ⟨rfl, ?_, by norm_num [zoomToSegmentCalc, max_def, min_def]⟩
  have key : ∀ M : ℚ, (ls + le) / 2 / td * (M * td) = (ls + le) / 2 * M := by
    intro M
    field_simp
    ring
  show max 0 (min ((ls + le) / 2 / td
        * ((zoomToSegmentCalc ls le td w).1 * td) - w / 2)
      (max 0 ((zoomToSegmentCalc ls le td w).1 * td - w)))
    = max 0 (min ((ls + le) / 2 * (zoomToSegmentCalc ls le td w).1 - w / 2)
      ((zoomToSegmentCalc ls le td w).1 * td - w))
  rw [key, clamp_drop_inner_max]

/-- Witness for C4 at the concrete example of the spec. -/
theorem c4_witness :
    (0 : ℚ) < 100 ∧ zoomToSegmentCalc 10 12 100 1000 = (250, 2250) :=
  ⟨by norm_num, (c4_zoomToSegmentCalc_spec 10 12 100 1000 (by norm_num)).2.2⟩

end SegmentEditor

namespace SegmentEditor

/-- Claim C5 (refuted by the code): a committed table time edit whose
entered value differs from the displayed 2-decimal value does not mutate
`start_sec`/`end_sec`; `startTimeEdit` assigns the dynamic
`start_time`/`end_time` properties instead, and the `PUT` body is keyed
`start_time`/`end_time`, contradicting the Segment data model and the
documented API contract.  Evaluated at the failing input: segment 1 with
`start_sec = 10`, start cell edited to `2.5`. -/
theorem c5_time_edit_bug :
    (commitTimeEdit demoState 1 true (5 / 2)).2
      = [ApiCall.put 1 { start_time := some (5 / 2) }] ∧
    (commitTimeEdit demoState 1 true (5 / 2)).1.segments.map Segment.start_sec
      = demoState.segments.map Segment.start_sec ∧
    (commitTimeEdit demoState 1 true (5 / 2)).1.segments
      = [{ demoSegment with start_time := some (5 / 2) }, demoSegment2] := by
  have hfind : demoState.segments.find? (fun s => s.segment_id == 1)
      = some demoSegment := by decide
  have hguard : ((5 : ℚ) / 2) ≠ roundTo2 10 := by
    norm_num [roundTo2, round_eq]
  refine ⟨?_, ?_, ?_⟩ <;>
    simp [commitTimeEdit, hfind, hguard, demoState, demoSegment, demoSegment2, modifyFirst]

/-- Claim C6: during `saveAll()` with a non-empty pending-deletion set,
one `DELETE` is issued per id sequentially; on full success the set is
cleared, delete-kind undo entries are purged and the unsaved-changes flag
is cleared; if any single call fails, the remaining deletes are not
issued and the whole state (pending-deletion set and unsaved-changes flag
included) keeps its prior value. -/
theorem c6_saveAll_batch (ok : ℤ → Bool) (st : AppState)
    (hne : st.deletedSegments ≠ []) :
    ((∀ x ∈ st.deletedSegments, ok x = true) →
      saveAll ok st
        = ({ st with
              deletedSegments := []
              undoStack := st.undoStack.filter (fun item => !item.isDelete)
              undoEnabled := !(st.undoStack.filter (fun item => !item.isDelete)).isEmpty
              hasUnsavedChanges := false },
           st.deletedSegments.map ApiCall.delete,
           { kind := .saved,
             message := "Saved (" ++ toString st.deletedSegments.length ++ " segment"
               ++ (if st.deletedSegments.length > 1 then "s" else "") ++ " deleted)" })) ∧
    (∀ pre bad post, st.deletedSegments = pre ++ bad :: post →
      (∀ x ∈ pre, ok x = true) → ok bad = false →
      saveAll ok st
        = (st, (pre ++ [bad]).map ApiCall.delete,
           { kind := .error, message := "Save failed" })) := by
  have hlen : ¬st.deletedSegments.length = 0 := by
    simpa [List.length_eq_zero] using hne
  constructor
  · intro hok
    unfold saveAll
    simp only [hlen, if_false, runDeletes_all_ok ok _ hok]
    simp
  · intro pre bad post hsplit hpre hbad
    unfold saveAll
    rw [hsplit]
    have hlen2 : ¬(pre ++ bad :: post).length = 0 := by
      rw [← hsplit]
      exact hlen
    simp only [hlen2, if_false, runDeletes_first_failure ok pre bad post hpre hbad]
    rw [← hsplit]
    simp

/-- A concrete state with two pending deletions and a mixed undo stack,
used by the batch-save witness. -/
def demoSaveState : AppState :=
  { segments := [demoSegment, demoSegment2], selectedSegmentId := none,
    undoStack := [UndoEntry.deleteMark 1, UndoEntry.editText 2 "b"],
    deletedSegments := [1, 2], hasUnsavedChanges := true,
    undoEnabled := true, deleteEnabled := false }

/-- Witness for C6 at the concrete state, with an all-success network. -/
theorem c6_witness :
    demoSaveState.deletedSegments ≠ [] ∧
    saveAll (fun _ => true) demoSaveState
      = ({ demoSaveState with
            deletedSegments := []
            undoStack := [UndoEntry.editText 2 "b"]
            undoEnabled := true
            hasUnsavedChanges := false },
         [ApiCall.delete 1, ApiCall.delete 2],
         { kind := .saved, message := "Saved (2 segments deleted)" }) := by
  refine ⟨by decide, ?_⟩
  have h := (c6_saveAll_batch (fun _ => true) demoSaveState (by decide)).1
    (fun x _ => rfl)
  rw [h]
  decide

/-- Claim C7: `saveAll()` called while the pending-deletion set is empty
issues no network calls and immediately reports the all-saved status; the
local state is otherwise unchanged except that the unsaved-changes flag is
cleared. -/
theorem c7_saveAll_empty (ok : ℤ → Bool) (st : AppState)
    (h : st.deletedSegments = []) :
    saveAll ok st
      = ({ st with hasUnsavedChanges := false }, [],
         { kind := .saved, message := "All changes saved" }) := by
  unfold saveAll
  simp [h]

/-- Witness for C7 at the concrete store. -/
theorem c7_witness :
    demoState.deletedSegments = [] ∧
    saveAll (fun _ => true) demoState
      = ({ demoState with hasUnsavedChanges := false }, [],
         { kind := .saved, message := "All changes saved" }) :=
  ⟨rfl, c7_saveAll_empty (fun _ => true) demoState rfl⟩

end SegmentEditor

namespace SegmentEditor

/-- Claim C8: segment lookup by id tolerates numeric versus string id
representations: passing the id as a number or as its decimal string,
`selectSegment` locates the same segment (which exists when the id is
present) and produces the same selection state, comparing by numeric
value. -/
theorem c8_select_id_coercion (st : AppState) (n : ℤ)
    (hmem : n ∈ st.segments.map Segment.segment_id) :
    selectSegment st (JsId.str n) = selectSegment st (JsId.num n) ∧
    (∃ seg, st.segments.find? (fun s => s.segment_id == n) = some seg ∧
      seg.segment_id = n) ∧
    (selectSegment st (JsId.str n)).selectedSegmentId = some n ∧
    (selectSegment st (JsId.num n)).selectedSegmentId = some n := by
  refine ⟨rfl, ?_, rfl, rfl⟩
  obtain ⟨seg, hsegmem, hid⟩ := List.mem_map.mp hmem
  have hsome : (st.segments.find? (fun s => s.segment_id == n)).isSome := by
    rw [List.find?_isSome]
    exact ⟨seg, hsegmem, by simp [hid]⟩
  obtain ⟨found, hfind⟩ := Option.isSome_iff_exists.mp hsome
  exact ⟨found, hfind, by simpa using List.find?_some hfind⟩

/-- Witness for C8 at the concrete store. -/
theorem c8_witness :
    (1 : ℤ) ∈ demoState.segments.map Segment.segment_id ∧
    selectSegment demoState (JsId.str 1) = selectSegment demoState (JsId.num 1) ∧
    (selectSegment demoState (JsId.str 1)).selectedSegmentId = some 1 := by
  have h := c8_select_id_coercion demoState 1 (by decide)
  exact ⟨by decide, h.1, h.2.2.1⟩

/-- Claim C9: if `undo()` pops an edit-kind entry whose segment id is not
present in the current segments array, the entry is discarded without
effect: no segment fields are modified, no server update is issued, and
the undo control's enabled state is recomputed from the remaining stack
(the resulting state differs from the prior one only in the popped stack
and the recomputed button state). -/
theorem c9_undo_missing_segment (st : AppState) (e : UndoEntry)
    (rest : List UndoEntry)
    (hstk : st.undoStack = e :: rest)
    (hnd : e.isDelete = false)
    (hmiss : ∀ s ∈ st.segments, s.segment_id ≠ e.segmentId) :
    undo st = ({ st with undoStack := rest, undoEnabled := !rest.isEmpty }, []) := by
  have hfind : st.segments.find? (fun s => s.segment_id == e.segmentId) = none :=
    List.find?_eq_none.mpr (fun x hx => by simpa using hmiss x hx)
  unfold undo
  simp only [hstk]
  cases e with
  | deleteMark i => simp [UndoEntry.isDelete] at hnd
  | editTimes i a b =>
    simp only [UndoEntry.segmentId] at hfind
    simp [UndoEntry.segmentId, hfind]
  | editText i t =>
    simp only [UndoEntry.segmentId] at hfind
    simp [UndoEntry.segmentId, hfind]
  | timeCell i t =>
    simp only [UndoEntry.segmentId] at hfind
    simp [UndoEntry.segmentId, hfind]

/-- A concrete state whose undo stack references a segment id absent from
the store, used by the lookup-miss witness. -/
def demoMissState : AppState :=
  { segments := [demoSegment], selectedSegmentId := none,
    undoStack := [UndoEntry.editTimes 99 0 1], deletedSegments := [],
    hasUnsavedChanges := false, undoEnabled := true, deleteEnabled := false }

/-- Witness for C9 at the concrete state. -/
theorem c9_witness :
    demoMissState.undoStack = [UndoEntry.editTimes 99 0 1] ∧
    (UndoEntry.editTimes 99 0 1).isDelete = false ∧
    undo demoMissState
      = ({ demoMissState with undoStack := [], undoEnabled := false }, []) := by
  refine ⟨rfl, rfl, ?_⟩
  have h := c9_undo_missing_segment demoMissState (UndoEntry.editTimes 99 0 1) []
    rfl rfl (by decide)
  simpa using h

/-- Claim C10: in the soft-delete variant, `saveAll()` never modifies the
segments array: after any `saveAll()` (in particular a successful one)
every segment that was marked for deletion is still present in
`state.segments` with `markedForDeletion = true`; only `finalizeDeletes`
removes marked segments from the array. -/
theorem c10_saveAll_preserves_segments (ok : ℤ → Bool) (st : AppState) :
    (saveAll ok st).1.segments = st.segments ∧
    (∀ seg ∈ st.segments, seg.markedForDeletion = true →
      seg ∈ (saveAll ok st).1.segments ∧ seg.markedForDeletion = true) := by
  have h1 : (saveAll ok st).1.segments = st.segments := by
    unfold saveAll
    dsimp only
    split
    · rfl
    · split <;> rfl
  exact ⟨h1, fun seg hmem hm => ⟨h1 ▸ hmem, hm⟩⟩

/-- A concrete state holding a segment marked for deletion, used by the
frame-property witness. -/
def demoMarkedSegment : Segment :=
  { segment_id := 3, chunk_id := 1, start_sec := 30, end_sec := 31,
    text := "c", gap_type := "", markedForDeletion := true }

/-- Concrete state for the C10 witness: segment 3 is marked and pending. -/
def demoMarkedState : AppState :=
  { segments := [demoSegment, demoMarkedSegment], selectedSegmentId := none,
    undoStack := [UndoEntry.deleteMark 3], deletedSegments := [3],
    hasUnsavedChanges := true, undoEnabled := true, deleteEnabled := false }

/-- Witness for C10 at the concrete state, with an all-success network. -/
theorem c10_witness :
    demoMarkedSegment ∈ demoMarkedState.segments ∧
    demoMarkedSegment.markedForDeletion = true ∧
    (saveAll (fun _ => true) demoMarkedState).1.segments = demoMarkedState.segments ∧
    demoMarkedSegment ∈ (saveAll (fun _ => true) demoMarkedState).1.segments := by
  have h := c10_saveAll_preserves_segments (fun _ => true) demoMarkedState
  exact ⟨by decide, rfl, h.1, (h.2 demoMarkedSegment (by decide) rfl).1⟩

end SegmentEditor
